import Mathlib

/-
Verification development for the bots-edi-parser repository.

The repository source under verification consists of the callers, examples,
demo driver and auxiliary scripts of the `edi_parser` package (the package
core itself is only invoked from these files).  Pure script functions
(`extract_segments_from_xml` in scripts/parse_x12_xmls.py and
`extract_fields_from_text` in download_edifact_segments.py) are embedded
directly from their Python source.  The core `parse_edi` / `validate_edi`
pipeline, which is not present in the source tree, is modelled from the
specification; the shapes of its result records and of its keyword options
follow the repository's own callers (examples/parse_edi.py, demo.py,
test_transformers.py, examples/validate_edi_example.py).
-/

/-! ## Generic list helpers -/

/-- Take elements of a list up to and including the first one satisfying `p`;
the truncation a run performs when it abandons the parse at a failing
diagnostic. -/
def takeThrough {α : Type} (p : α → Bool) : List α → List α
  | [] => []
  | a :: l => if p a then [a] else a :: takeThrough p l

/-! ## Diagnostics (data model of spec section 3) -/

/-- Modelled from the spec: the severity vocabulary of a diagnostic record,
`fatal | error | warning | info` (spec section 3, "Diagnostic record"). -/
inductive Severity where
  | fatal
  | error
  | warning
  | info
deriving DecidableEq, Repr

/-- A severity that fails the result: `error` or `fatal` (spec section 7). -/
def sevFailing : Severity → Bool
  | Severity.fatal => true
  | Severity.error => true
  | _ => false

def sevFatal : Severity → Bool
  | Severity.fatal => true
  | _ => false

/-- Modelled from the spec: a diagnostic record with stable code, severity,
category, location (byte offset and structural path depth) and description
(spec section 3). -/
structure Diagnostic where
  code : String
  severity : Severity
  category : String
  offset : Nat
  pathDepth : Nat
  description : String
deriving DecidableEq, Repr

def diagFailing (d : Diagnostic) : Bool := sevFailing d.severity

def diagFatal (d : Diagnostic) : Bool := sevFatal d.severity

/-- Sort key of a diagnostic: byte offset, then path depth. -/
def diagKey (d : Diagnostic) : Nat × Nat := (d.offset, d.pathDepth)

/-- The ordering of returned diagnostics: ascending byte offset, ties broken
by path depth, shallowest first (spec section 3, invariant 5). -/
def diagLe (a b : Diagnostic) : Prop :=
  a.offset < b.offset ∨ (a.offset = b.offset ∧ a.pathDepth ≤ b.pathDepth)

instance : DecidableRel diagLe := fun _ _ => instDecidableOr

instance : IsTotal Diagnostic diagLe := ⟨by intro a b; unfold diagLe; omega⟩

instance : IsTrans Diagnostic diagLe := ⟨by intro a b c; unfold diagLe; omega⟩

/-- Modelled from the spec: the diagnostic collector's end-of-parse snapshot,
which returns the emitted diagnostics sorted per the invariant in section 3
(stable insertion sort, so diagnostics with equal offset and depth keep
emission order). -/
def snapshot (l : List Diagnostic) : List Diagnostic := List.insertionSort diagLe l

/-! ## Options (spec section 4.7; keyword names from the repository callers) -/

inductive ValidationMode where
  | strict
  | lenient
deriving DecidableEq, Repr

inductive EmptySegPolicy where
  | skip
  | err
deriving DecidableEq, Repr

/-- Modelled from the spec: the enumerated option set of `parse`/`validate`
(spec section 4.7).  Field names follow the keyword arguments used by the
repository's callers: `field_validation_mode`, `continue_on_error`, `debug`
and `charset` appear in demo.py and docs/parser.py, and the
unknown-entities flag is spelled `checkunknownentities` in
examples/parse_edi.py line 134. -/
structure Options where
  charset : String := "utf-8"
  field_validation_mode : ValidationMode := ValidationMode.strict
  continue_on_error : Bool := false
  empty_segment_handling : EmptySegPolicy := EmptySegPolicy.skip
  checkunknownentities : Bool := true
  trim_trailing_spaces : Bool := true
  debug : Bool := false
deriving DecidableEq, Repr

/-! ## Delimiter detection (spec section 4.1) -/

/-- Modelled from the spec: the discovered delimiter set (spec section 3,
"Delimiter set"): field separator, component separator, segment terminator,
optional repetition separator and release character, decimal mark. -/
structure Delims where
  fieldSep : Char
  compSep : Char
  segTerm : Char
  repSep : Option Char
  release : Option Char
  decimalMark : Char
deriving DecidableEq, Repr

def mkFatal (code : String) (cat : String) (off : Nat) (desc : String) : Diagnostic :=
  ⟨code, Severity.fatal, cat, off, 0, desc⟩

def natOfDigitsAux : List Char → Nat → Option Nat
  | [], acc => some acc
  | c :: r, acc => if c.isDigit then natOfDigitsAux r (acc * 10 + (c.toNat - 48)) else none

def natOfDigits : List Char → Option Nat
  | [] => none
  | c :: r => natOfDigitsAux (c :: r) 0

/-- The repetition separator exists in X12 versions at least 00402 (spec
section 4.1, read from ISA12). -/
def versionGE402 (s : String) : Bool :=
  match natOfDigits s.toList with
  | some n => decide (402 ≤ n)
  | none => false

/-- Modelled from the spec: X12 delimiter detection from the fixed 106-byte
ISA layout (spec section 4.1): field separator at offset 3, component
separator at offset 104, segment terminator at offset 105, repetition
separator at offset 82 when ISA12 is at least 00402. -/
def detectX12 (cs : List Char) : Except Diagnostic Delims :=
  if cs.take 3 ≠ ['I', 'S', 'A'] then
    Except.error (mkFatal "E001-DELIM-ISA" "delimiter" 0 "Input does not begin with an ISA envelope")
  else if cs.length < 106 then
    Except.error (mkFatal "E001-DELIM-ISA" "delimiter" 0 "ISA segment shorter than its fixed layout")
  else
    let f := cs.getD 3 ' '
    let comp := cs.getD 104 ' '
    let term := cs.getD 105 ' '
    let isa12 := String.mk ((cs.drop 84).take 5)
    let rep := if versionGE402 isa12 then some (cs.getD 82 ' ') else none
    if f = comp ∨ f = term ∨ comp = term then
      Except.error (mkFatal "E002-DELIM-COLLISION" "delimiter" 0 "Duplicate delimiter assignment in ISA")
    else
      Except.ok ⟨f, comp, term, rep, none, '.'⟩

/-- EDIFACT default delimiters used when no UNA advice is present (spec
section 4.1): component separator, field separator, decimal mark, release
character, segment terminator drawn from the service string defaults. -/
def edifactDefaultDelims : Delims := ⟨'+', ':', '\x27', none, some '?', '.'⟩

/-- Modelled from the spec: EDIFACT delimiter detection; the optional `UNA`
service string gives, in order, component separator, field separator,
decimal mark, release character, reserved, segment terminator (spec
section 4.1). -/
def detectEdifact (cs : List Char) : Except Diagnostic Delims :=
  if cs.take 3 = ['U', 'N', 'A'] then
    if cs.length < 9 then
      Except.error (mkFatal "E001-DELIM-UNA" "delimiter" 0 "UNA service string advice truncated")
    else
      let comp := cs.getD 3 ' '
      let f := cs.getD 4 ' '
      let dec := cs.getD 5 ' '
      let rel := cs.getD 6 ' '
      let term := cs.getD 8 ' '
      if f = comp ∨ f = term ∨ comp = term then
        Except.error (mkFatal "E002-DELIM-COLLISION" "delimiter" 0 "Duplicate delimiter assignment in UNA")
      else
        Except.ok ⟨f, comp, term, none, some rel, dec⟩
  else
    Except.ok edifactDefaultDelims

/-- Modelled from the spec: entry point of the delimiter detector; an empty
document or an unrecognized edi type is a fatal condition (spec sections
4.1 and 8, boundary behaviors). -/
def detectDelims (editype : String) (cs : List Char) : Except Diagnostic Delims :=
  if cs.isEmpty then
    Except.error (mkFatal "E001-EMPTY" "delimiter" 0 "Empty document")
  else if editype = "x12" then detectX12 cs
  else if editype = "edifact" then detectEdifact cs
  else
    Except.error (mkFatal "E001-GRAMMAR" "grammar" 0 "Unrecognized editype")

/-! ## Lexer (spec section 4.2) -/

/-- A raw segment token: byte offset of its first byte and its content. -/
structure SegTok where
  offset : Nat
  content : List Char
deriving DecidableEq, Repr

/-- Modelled from the spec: the segment splitter of the lexer.  A release
character makes the following byte literal; the segment terminator closes a
token; a nonempty tail at end of input is returned as the unterminated
leftover token (spec section 4.2). -/
def lexAux (term : Char) (rel : Option Char) :
    List Char → Nat → List Char → Nat → List SegTok → List SegTok × Option SegTok
  | [], _, acc, start, segs =>
      (segs.reverse, if acc.isEmpty then none else some ⟨start, acc.reverse⟩)
  | c :: rest, pos, acc, start, segs =>
      if rel = some c then
        match rest with
        | [] => lexAux term rel [] (pos + 1) (c :: acc) start segs
        | d :: rest2 => lexAux term rel rest2 (pos + 2) (d :: c :: acc) start segs
      else if c = term then
        lexAux term rel rest (pos + 1) [] (pos + 1) (⟨start, acc.reverse⟩ :: segs)
      else
        lexAux term rel rest (pos + 1) (c :: acc) start segs

def lexSegments (d : Delims) (cs : List Char) : List SegTok × Option SegTok :=
  lexAux d.segTerm d.release cs 0 [] 0 []

/-- Modelled from the spec: split one segment's content into fields at the
field separator, honoring the release character (spec section 4.2). -/
def splitFieldsAux (sep : Char) (rel : Option Char) :
    List Char → List Char → List (List Char) → List (List Char)
  | [], acc, out => (acc.reverse :: out).reverse
  | c :: rest, acc, out =>
      if rel = some c then
        match rest with
        | [] => splitFieldsAux sep rel [] (c :: acc) out
        | d :: rest2 => splitFieldsAux sep rel rest2 (d :: c :: acc) out
      else if c = sep then splitFieldsAux sep rel rest [] (acc.reverse :: out)
      else splitFieldsAux sep rel rest (c :: acc) out

def splitFields (d : Delims) (content : List Char) : List (List Char) :=
  splitFieldsAux d.fieldSep d.release content [] []

/-- The tag of a segment token: its content up to the first field separator. -/
def segTag (d : Delims) (content : List Char) : String :=
  String.mk (content.takeWhile (fun c => c ≠ d.fieldSep))

/-- A well-formed segment tag: 2 to 3 uppercase letters or digits (spec
section 3, "Token"). -/
def tagOk (t : String) : Bool :=
  decide (2 ≤ t.length) && decide (t.length ≤ 3) && t.toList.all (fun c => c.isUpper || c.isDigit)

/-- Modelled from the spec: the per-segment checks of the tree builder that
the model retains: empty-segment policy (`I120-EMPTY-SKIPPED` info under
`skip`, `E011-SEG-EMPTY` under `error`) and the unknown-segment rule
(`E303-SEG-UNKNOWN` error in strict mode, `W303-SEG-UNKNOWN` warning in
lenient mode) (spec section 4.5). -/
def segDiags (opts : Options) (d : Delims) (s : SegTok) : List Diagnostic :=
  if s.content.isEmpty then
    match opts.empty_segment_handling with
    | EmptySegPolicy.skip =>
        [⟨"I120-EMPTY-SKIPPED", Severity.info, "structural", s.offset, 2, "Empty segment skipped"⟩]
    | EmptySegPolicy.err =>
        [⟨"E011-SEG-EMPTY", Severity.error, "structural", s.offset, 2, "Empty segment"⟩]
  else if tagOk (segTag d s.content) then []
  else
    match opts.field_validation_mode with
    | ValidationMode.strict =>
        [⟨"E303-SEG-UNKNOWN", Severity.error, "structural", s.offset, 2, "Segment tag not recognized"⟩]
    | ValidationMode.lenient =>
        [⟨"W303-SEG-UNKNOWN", Severity.warning, "structural", s.offset, 2, "Segment tag not recognized"⟩]

/-- Modelled from the spec: the full emission stream of one run, in emission
order: a fatal delimiter/grammar diagnostic, or the per-segment diagnostics
in input order followed by `E010-SEG-UNTERMINATED` for a leftover segment
at end of input (spec sections 4.1, 4.2, 4.5). -/
def rawDiags (editype : String) (opts : Options) (content : String) : List Diagnostic :=
  match detectDelims editype content.toList with
  | Except.error dg => [dg]
  | Except.ok d =>
      let (segs, leftover) := lexSegments d content.toList
      (segs.foldr (fun s acc => segDiags opts d s ++ acc) []) ++
        (match leftover with
         | none => []
         | some p =>
             segDiags opts d p ++
               [⟨"E010-SEG-UNTERMINATED", Severity.error, "structural", p.offset, 1,
                 "Final segment not terminated"⟩])

/-- Where a run stops emitting: with `continue_on_error` it only aborts at a
fatal diagnostic, otherwise at the first failing (error or fatal) one
(spec section 7, severity semantics). -/
def stopPred (opts : Options) : Diagnostic → Bool :=
  if opts.continue_on_error then diagFatal else diagFailing

/-- The diagnostics a `parse` run actually emits before returning. -/
def parseEmitted (content editype : String) (opts : Options) : List Diagnostic :=
  takeThrough (stopPred opts) (rawDiags editype opts content)

/-- The diagnostics a `validate` run emits: validate shares the core but
forces lenient structural continuation, so only a fatal diagnostic stops it
(spec section 4.7). -/
def validateEmitted (content editype : String) (opts : Options) : List Diagnostic :=
  takeThrough diagFatal (rawDiags editype opts content)

/-! ## Output tree and results (spec sections 3 and 4.7) -/

/-- A segment node of the output tree: tag plus its raw field values. -/
structure SegNode where
  tag : String
  fields : List String
deriving DecidableEq, Repr

def buildTree (d : Delims) (segs : List SegTok) (leftover : Option SegTok) : List SegNode :=
  (segs ++ (match leftover with | none => [] | some p => [p])).map
    (fun s => ⟨segTag d s.content, (splitFields d s.content).map String.mk⟩)

/-- Modelled from the spec: the number of messages in the document, counted
as ST transaction sets for X12 and UNH message headers for EDIFACT. -/
def messageCount (editype content : String) : Nat :=
  match detectDelims editype content.toList with
  | Except.error _ => 0
  | Except.ok d =>
      let (segs, leftover) := lexSegments d content.toList
      let tags := (segs ++ (match leftover with | none => [] | some p => [p])).map
        (fun s => segTag d s.content)
      let msgTag := if editype = "x12" then "ST" else "UNH"
      (tags.filter (fun t => t == msgTag)).length

/-- Modelled from the spec: the data field of a parse result; a fatal
diagnostic leaves the tree null (spec section 7). -/
def parseData (editype content : String) (opts : Options) : Option (List SegNode) :=
  match detectDelims editype content.toList with
  | Except.error _ => none
  | Except.ok d =>
      let (segs, leftover) := lexSegments d content.toList
      if (parseEmitted content editype opts).any diagFatal then none
      else some (buildTree d segs leftover)

/-- The result record of `parse_edi`.  Field names follow the keys the
repository's callers read from the returned dict: `success`, `data`,
`errors` and `message_count` (examples/parse_edi.py lines 34 to 40,
demo.py lines 174 to 229, test_transformers.py lines 36 to 46). -/
structure ParseResult where
  success : Bool
  data : Option (List SegNode)
  errors : List Diagnostic
  message_count : Nat
deriving DecidableEq, Repr

/-- The result record of `validate_edi`.  Field names follow the keys the
repository's callers read: `valid`, `error_count`, `errors` and `summary`
(demo.py lines 115 to 145, examples/validate_edi_example.py lines 22 to
45). -/
structure ValidateResult where
  valid : Bool
  error_count : Nat
  errors : List Diagnostic
  summary : String
deriving DecidableEq, Repr

/-- A Python-dict value, for viewing result records as keyed dictionaries. -/
inductive EdiValue where
  | boolV : Bool → EdiValue
  | natV : Nat → EdiValue
  | strV : String → EdiValue
  | treeV : Option (List SegNode) → EdiValue
  | diagsV : List Diagnostic → EdiValue
deriving DecidableEq, Repr

/-- The dict a parse result presents to callers, with its exact keys. -/
def ParseResult.toDict (r : ParseResult) : List (String × EdiValue) :=
  [("success", EdiValue.boolV r.success), ("data", EdiValue.treeV r.data),
   ("errors", EdiValue.diagsV r.errors), ("message_count", EdiValue.natV r.message_count)]

/-- The dict a validate result presents to callers, with its exact keys. -/
def ValidateResult.toDict (r : ValidateResult) : List (String × EdiValue) :=
  [("valid", EdiValue.boolV r.valid), ("error_count", EdiValue.natV r.error_count),
   ("errors", EdiValue.diagsV r.errors), ("summary", EdiValue.strV r.summary)]

/-- Modelled from the spec: the `parse` entry point (spec section 4.7):
returns the sorted diagnostics snapshot, success iff no failing diagnostic,
the tree (or null after a fatal), and the message count. -/
def parse_edi (content editype messagetype : String) (opts : Options) : ParseResult :=
  let errors := snapshot (parseEmitted content editype opts)
  { success := !(errors.any diagFailing),
    data := parseData editype content opts,
    errors := errors,
    message_count := messageCount editype content }

/-- Modelled from the spec: the `validate` entry point (spec section 4.7):
shares the core but forces lenient structural continuation so that all
errors surface; valid iff no failing diagnostic was emitted. -/
def validate_edi (content editype messagetype : String) (opts : Options) : ValidateResult :=
  let errors := snapshot (validateEmitted content editype opts)
  let ecount := (errors.filter diagFailing).length
  { valid := !(errors.any diagFailing),
    error_count := ecount,
    errors := errors,
    summary :=
      if errors.any diagFailing then toString ecount ++ " validation error(s) found"
      else "Document is valid" }

/-! ## AN field decoding and encoding (spec sections 4.2, 4.4, 8) -/

/-- The characters that must be escaped on the wire for a given delimiter
set: the delimiters and the release character itself. -/
def ediSpecials (d : Delims) : List Char :=
  [d.fieldSep, d.compSep, d.segTerm] ++
    (match d.repSep with | some r => [r] | none => []) ++
    (match d.release with | some r => [r] | none => [])

/-- Modelled from the spec: release-character unescaping (spec section 4.2,
"a preceding release char causes the next byte to be taken literally").  A
lone release character at end of value is kept literal. -/
def unescapeChars (rel : Char) : List Char → List Char
  | [] => []
  | [c] => [c]
  | c :: d :: rest =>
      if c = rel then d :: unescapeChars rel rest
      else c :: unescapeChars rel (d :: rest)

/-- Modelled from the spec: decoding of an AN field value: resolve release
escapes, then optionally trim trailing padding spaces (spec sections 3 and
4.4). -/
def decodeAN (d : Delims) (trim : Bool) (v : String) : String :=
  let u := match d.release with
    | none => v.toList
    | some r => unescapeChars r v.toList
  let t := if trim then (u.reverse.dropWhile (fun c => c = ' ')).reverse else u
  String.mk t

def encodeChars (rel : Char) (specials : List Char) : List Char → List Char
  | [] => []
  | c :: rest =>
      if specials.contains c then rel :: c :: encodeChars rel specials rest
      else c :: encodeChars rel specials rest

/-- Modelled from the spec: encoding of an AN value back to the wire form,
escaping every delimiter and the release character (spec section 8,
boundary behavior "delimiter-in-value"). -/
def encodeAN (d : Delims) (v : String) : String :=
  match d.release with
  | none => v
  | some r => String.mk (encodeChars r (ediSpecials d) v.toList)

/-- An AN wire value is canonically escaped when it is the encoding of some
decoded value. -/
def CanonicalAN (d : Delims) (v : String) : Prop := ∃ t, encodeAN d t = v

/-- Modelled from the spec: the wire spelling of each severity value, per
the enumeration `fatal | error | warning | info` of spec section 3. -/
def severityToString : Severity → String
  | Severity.fatal => "fatal"
  | Severity.error => "error"
  | Severity.warning => "warning"
  | Severity.info => "info"

/-! ## Grammar identification (src/demo.py, src/docs/parser.py, src/list_needed_xmls.py) -/

/-- The messagetype string demo.py builds for both validate (line 112) and
parse (line 169): `f'{transaction_type}005010'`; docs/parser.py line 113
builds the same merged string. -/
def demoMessagetype (transaction_type : String) : String := transaction_type ++ "005010"

/-- The grammar filename pattern of list_needed_xmls.py line 29:
`re.match(r'^(\d{3})00(\d{4})\.py$', filename)`, returning the transaction
and version groups on a match. -/
def grammarFileMatch (filename : String) : Option (String × String) :=
  match filename.toList with
  | [a1, a2, a3, b1, b2, c1, c2, c3, c4, q1, q2, q3] =>
      if a1.isDigit && a2.isDigit && a3.isDigit && (b1 == '0') && (b2 == '0') &&
          c1.isDigit && c2.isDigit && c3.isDigit && c4.isDigit &&
          (q1 == '.') && (q2 == 'p') && (q3 == 'y') then
        some (String.mk [a1, a2, a3], String.mk [c1, c2, c3, c4])
      else none
  | _ => none

/-! ## The option keywords of the example call (src/examples/parse_edi.py) -/

/-- The keyword arguments of the `parse_edi` call in `example_with_options`
(examples/parse_edi.py lines 129 to 136). -/
def exampleWithOptionsKwargs : List String :=
  ["content", "editype", "messagetype", "debug", "checkunknownentities", "continue_on_error"]

/-- The EDIFACT content of `example_with_options` (examples/parse_edi.py
line 127). -/
def exampleWithOptionsContent : String :=
  "UNB+UNOC:3+S:14+R:14+20231020:1430+1\x27UNH+1+ORDERS:D:96A:UN\x27BGM+220+O1+9\x27UNT+3+1\x27UNZ+1+1\x27"

/-- The modelled `example_with_options` call: `debug=True`,
`checkunknownentities=False`, `continue_on_error=True`. -/
def exampleWithOptionsResult : ParseResult :=
  parse_edi exampleWithOptionsContent "edifact" "ORDERS"
    { debug := true, checkunknownentities := false, continue_on_error := true }

/-! ## extract_segments_from_xml (src/scripts/parse_x12_xmls.py lines 98 to 131)

The XML traversal (`root.iter('segment')` followed by `parse_segment`)
yields one segment record per `<segment>` node, in document order; the
merge logic reads only a record's id, its name and its element list, of
which only each element's name matters.  The embedding therefore works on
the list of parsed segment records. -/

/-- One entry of a parsed segment's `elements` list (an element or
composite dict); the merge logic only ever reads its `name`. -/
structure XmlElementDef where
  name : String
deriving DecidableEq, Repr

/-- A parsed segment definition as produced by `parse_segment`: `id`
(the `xid` attribute), `name` and the ordered `elements` list. -/
structure SegDef where
  id : String
  name : String
  elements : List XmlElementDef
deriving DecidableEq, Repr

/-- Python truthiness of `elements and elements[0].get('name')`: the list
is nonempty and its first entry has a nonempty name. -/
def hasNamedFirst (s : SegDef) : Bool :=
  match s.elements with
  | [] => false
  | e :: _ => e.name != ""

/-- Python truthiness of `elements and not elements[0].get('name')`. -/
def hasUnnamedFirst (s : SegDef) : Bool :=
  match s.elements with
  | [] => false
  | e :: _ => e.name == ""

/-- The merge decision of extract_segments_from_xml lines 111 to 127:
replace the stored definition when the new one has strictly more elements,
or, at an equal element count, when the new one has a name and the stored
one does not, or else when the new one has a named first element and the
stored one a present but unnamed first element. -/
def keepNewSeg (existing segNew : SegDef) : Bool :=
  if existing.elements.length < segNew.elements.length then true
  else if segNew.elements.length = existing.elements.length then
    if (segNew.name != "") && (existing.name == "") then true
    else hasNamedFirst segNew && hasUnnamedFirst existing
  else false

/-- Lookup in an insertion-ordered association list (the `segments` dict). -/
def lookupSeg : List (String × SegDef) → String → Option SegDef
  | [], _ => none
  | (k, v) :: rest, i => if k = i then some v else lookupSeg rest i

/-- Replace the value stored at a key of an insertion-ordered association
list, keeping its position (Python dict assignment to an existing key). -/
def replaceKey : List (String × SegDef) → String → SegDef → List (String × SegDef)
  | [], _, _ => []
  | (k, v) :: rest, i, s =>
      if k = i then (k, s) :: rest else (k, v) :: replaceKey rest i s

/-- One iteration of the `for segment_node in root.iter('segment')` loop:
store a new id, or merge into the stored definition per `keepNewSeg`. -/
def insertSegDef (m : List (String × SegDef)) (s : SegDef) : List (String × SegDef) :=
  match lookupSeg m s.id with
  | none => m ++ [(s.id, s)]
  | some ex => if keepNewSeg ex s then replaceKey m s.id s else m

/-- extract_segments_from_xml: fold the merge over the document's segment
records in document order, building the `segments` dict. -/
def extract_segments_from_xml (nodes : List SegDef) : List (String × SegDef) :=
  nodes.foldl insertSegDef []

/-- The maximum element count over all segment records with a given id. -/
def maxCount (nodes : List SegDef) (i : String) : Nat :=
  ((nodes.filter (fun n => n.id == i)).map (fun n => n.elements.length)).foldr Nat.max 0

/-- Sample document for the C9 witness: two NM1 nodes, the later one
richer. -/
def c9SampleNodes : List SegDef :=
  [⟨"NM1", "", [⟨"Entity Identifier Code"⟩, ⟨""⟩]⟩,
   ⟨"NM1", "Individual or Organizational Name",
     [⟨"Entity Identifier Code"⟩, ⟨"Entity Type Qualifier"⟩, ⟨"Name Last"⟩]⟩,
   ⟨"N3", "Party Location", [⟨"Address Information"⟩]⟩]

/-! ## extract_fields_from_text (src/download_edifact_segments.py lines 160 to 229)

The function walks the page text line by line; a line matching the
top-level pattern `^(\d{3})\s+([A-Z0-9]+)\s+(.+?)\s+(M|C)\s+(a?n?\.{0,2}\d+)?\s*$`
opens a new field (a composite when its code starts with `C`), and a line
matching the sub-element pattern `^\s{4,}(\d{4})\s+(.+?)\s+(M|C)\s+(a?n?\.{0,2}\d+)?\s*$`
is appended to the current composite's `sub_elements` when one is open.
The two patterns are embedded below with Python's backtracking order: the
whitespace run before the lazy name group is consumed greedily and given
back from the right, and the name group grows from the shortest length. -/

/-- Python's `\s` character class (ASCII). -/
def isWSb (c : Char) : Bool :=
  c == ' ' || c == '\t' || c == '\r' || c == '\n' || c == '\x0b' || c == '\x0c'

/-- A character of the segment-code class `[A-Z0-9]`. -/
def isCodeChar (c : Char) : Bool := c.isUpper || c.isDigit

/-- Greedy match of the data-type token `a?n?\.{0,2}\d+` (its parts are
pairwise disjoint from one another and from whitespace, so greedy matching
is maximal-munch). -/
def typeTok (cs : List Char) : Option (List Char × List Char) :=
  let (aPart, r1) :=
    match cs with
    | 'a' :: r => (['a'], r)
    | _ => (([] : List Char), cs)
  let (nPart, r2) :=
    match r1 with
    | 'n' :: r => (['n'], r)
    | _ => (([] : List Char), r1)
  let (dots, r3) :=
    match r2 with
    | '.' :: '.' :: r => (['.', '.'], r)
    | '.' :: r => (['.'], r)
    | _ => (([] : List Char), r2)
  let (digits, r4) := r3.span Char.isDigit
  if digits.isEmpty then none else some (aPart ++ nPart ++ dots ++ digits, r4)

/-- Match `\s+(M|C)\s+(a?n?\.{0,2}\d+)?\s*$` against the remainder after a
candidate name: at least one whitespace, a status letter, at least one
whitespace, then an optional type token followed only by whitespace. -/
def tailMatchAt (cs : List Char) : Option (Char × List Char) :=
  let (w1, r1) := cs.span isWSb
  if w1.isEmpty then none
  else
    match r1 with
    | [] => none
    | st :: r2 =>
        if st == 'M' || st == 'C' then
          let (w2, r3) := r2.span isWSb
          if w2.isEmpty then none
          else
            match typeTok r3 with
            | some (t, r4) => if r4.all isWSb then some (st, t) else none
            | none => if r3.isEmpty then some (st, []) else none
        else none

/-- The lazy name group `(.+?)`: try the shortest nonempty prefix whose
remainder matches the tail pattern. -/
def findNameSplit : List Char → List Char → Option (List Char × Char × List Char)
  | _, [] => none
  | acc, c :: rest =>
      match tailMatchAt rest with
      | some (st, t) => some ((c :: acc).reverse, st, t)
      | none => findNameSplit (c :: acc) rest

/-- Backtracking over the greedy `\s+` before the name: whitespace is
consumed maximally first and given back to the name group from the right,
one character at a time, keeping at least one consumed. -/
def wsGiveback : List Char → List Char → Option (List Char × Char × List Char)
  | budget, stream =>
      match findNameSplit [] stream with
      | some r => some r
      | none =>
          match budget with
          | [] => none
          | c :: b2 => wsGiveback b2 (c :: stream)

/-- Match `\s+(.+?)\s+(M|C)\s+(a?n?\.{0,2}\d+)?\s*$`, returning the name
characters, the status letter and the type token characters. -/
def matchBody (cs : List Char) : Option (List Char × Char × List Char) :=
  let (w, r) := cs.span isWSb
  match w with
  | [] => none
  | _ :: wrest => wsGiveback wrest.reverse r

/-- Match the top-level field pattern
`^(\d{3})\s+([A-Z0-9]+)\s+(.+?)\s+(M|C)\s+(a?n?\.{0,2}\d+)?\s*$`. -/
def topLevelMatch (cs : List Char) : Option (String × String × List Char × Char × List Char) :=
  match cs with
  | d1 :: d2 :: d3 :: rest =>
      if d1.isDigit && d2.isDigit && d3.isDigit then
        let (w1, r1) := rest.span isWSb
        if w1.isEmpty then none
        else
          let (codeCs, r2) := r1.span isCodeChar
          if codeCs.isEmpty then none
          else
            match matchBody r2 with
            | some (nameCs, st, tCs) =>
                some (String.mk [d1, d2, d3], String.mk codeCs, nameCs, st, tCs)
            | none => none
      else none
  | _ => none

/-- Match the sub-element pattern
`^\s{4,}(\d{4})\s+(.+?)\s+(M|C)\s+(a?n?\.{0,2}\d+)?\s*$`. -/
def subLineMatch (cs : List Char) : Option (String × List Char × Char × List Char) :=
  let (w, r) := cs.span isWSb
  if w.length < 4 then none
  else
    match r with
    | a :: b :: c :: d :: r2 =>
        if a.isDigit && b.isDigit && c.isDigit && d.isDigit then
          match matchBody r2 with
          | some (nameCs, st, tCs) => some (String.mk [a, b, c, d], nameCs, st, tCs)
          | none => none
        else none
    | _ => none

def startsSeq : List Char → List Char → Bool
  | [], _ => true
  | _ :: _, [] => false
  | p :: ps, c :: cs => p == c && startsSeq ps cs

def containsSeq (pat : List Char) : List Char → Bool
  | [] => startsSeq pat []
  | c :: rest => startsSeq pat (c :: rest) || containsSeq pat rest

/-- Python `not line.strip()`: the line is entirely whitespace. -/
def blankLine (cs : List Char) : Bool := cs.all isWSb

/-- The skip test of the loop: blank lines and header lines containing
`Change indicators` are ignored. -/
def lineSkipped (line : String) : Bool :=
  blankLine line.toList || containsSeq "Change indicators".toList line.toList

/-- Python `'Mandatory' if status == 'M' else 'Conditional'`. -/
def statusFull (st : Char) : String := if st == 'M' then "Mandatory" else "Conditional"

def wordsAux : List Char → List Char → List (List Char)
  | [], acc => if acc.isEmpty then [] else [acc.reverse]
  | c :: rest, acc =>
      if isWSb c then
        if acc.isEmpty then wordsAux rest [] else acc.reverse :: wordsAux rest []
      else wordsAux rest (c :: acc)

def joinSpace : List (List Char) → List Char
  | [] => []
  | [w] => w
  | w :: rest => w ++ ' ' :: joinSpace rest

/-- Python `' '.join(name.split())`: collapse whitespace runs. -/
def normName (cs : List Char) : String := String.mk (joinSpace (wordsAux cs []))

/-- A sub-element record (`sub_element` dict of the Python source). -/
structure SubEl where
  code : String
  name : String
  data_type : String
  status : String
deriving DecidableEq, Repr

/-- A field record (`field_data` dict); `sub_elements` is present exactly
when the dict carries that key (composites only). -/
structure FieldDef where
  position : String
  code : String
  name : String
  data_type : String
  status : String
  sub_elements : Option (List SubEl)
deriving DecidableEq, Repr

/-- Python `code.startswith('C')`: the field code opens with the letter C,
marking a composite. -/
def codeIsComposite (code : String) : Bool :=
  match code.toList with
  | c :: _ => c == 'C'
  | [] => false

/-- One iteration of the line loop of extract_fields_from_text.  The state
is the field list built so far (newest first, mirroring the aliasing of
`current_composite` into the last appended dict) and whether the most
recently matched top-level field is a composite. -/
def extractStep (st : List FieldDef × Bool) (line : String) : List FieldDef × Bool :=
  if lineSkipped line then st
  else
    match topLevelMatch line.toList with
    | some (pos, code, nameCs, stc, tCs) =>
        (⟨pos, code, normName nameCs, String.mk tCs, statusFull stc,
            if codeIsComposite code then some [] else none⟩ :: st.1,
          codeIsComposite code)
    | none =>
        match subLineMatch line.toList with
        | some (code, nameCs, stc, tCs) =>
            if st.2 then
              match st.1 with
              | f :: rest =>
                  ({ f with
                      sub_elements :=
                        some ((f.sub_elements.getD []) ++
                          [⟨code, normName nameCs, String.mk tCs, statusFull stc⟩]) } :: rest,
                    true)
              | [] => st
            else st
        | none => st

/-- The loop of extract_fields_from_text over an explicit line list. -/
def extractLines (lines : List String) : List FieldDef × Bool :=
  lines.foldl extractStep ([], false)

/-- extract_fields_from_text: split the page text into lines and run the
loop; the returned list is the accumulated fields in appearance order. -/
def extract_fields_from_text (text : String) : List FieldDef :=
  (extractLines (text.splitOn "\n")).1.reverse

/-- A line that the loop treats as a sub-element line: not skipped, not a
top-level field line, and matching the sub-element pattern. -/
def lineIsSub (line : String) : Bool :=
  !(lineSkipped line) && (topLevelMatch line.toList).isNone && (subLineMatch line.toList).isSome

/-- Sample lines for the C10 witness: a non-composite top-level field line
followed by an indented sub-element line. -/
def c10TopLine : String := "010   3035  PARTY QUALIFIER                       M  an..3"

def c10SubLine : String := "      3039   Party id. identification            M  an..35"

/-! ## Helper lemmas -/

theorem takeThrough_any {α : Type} (p q : α → Bool) (h : ∀ a, p a = true → q a = true) :
    ∀ l : List α, (takeThrough p l).any q = l.any q := by
  intro l
  induction l with
  | nil => rfl
  | cons a l ih =>
    unfold takeThrough
    by_cases hp : p a = true
    · rw [if_pos hp]
      simp [List.any_cons, h a hp]
    · rw [if_neg hp]
      simp [List.any_cons, ih]

theorem diagFailing_iff (d : Diagnostic) :
    diagFailing d = true ↔ (d.severity = Severity.error ∨ d.severity = Severity.fatal) := by
  cases hs : d.severity <;> simp [diagFailing, sevFailing, hs]

theorem diagFailing_eq_false_iff (d : Diagnostic) :
    diagFailing d = false ↔ ¬(d.severity = Severity.error ∨ d.severity = Severity.fatal) := by
  cases hs : d.severity <;> simp [diagFailing, sevFailing, hs]

theorem diagFatal_imp_failing : ∀ d : Diagnostic, diagFatal d = true → diagFailing d = true := by
  intro d
  cases hs : d.severity <;> simp [diagFatal, diagFailing, sevFatal, sevFailing, hs]

theorem snapshot_any (q : Diagnostic → Bool) (l : List Diagnostic) :
    (snapshot l).any q = l.any q := by
  rw [Bool.eq_iff_iff]
  simp only [snapshot, List.any_eq_true]
  constructor
  · rintro ⟨x, hx, hq⟩
    exact ⟨x, (List.perm_insertionSort diagLe l).mem_iff.mp hx, hq⟩
  · rintro ⟨x, hx, hq⟩
    exact ⟨x, (List.perm_insertionSort diagLe l).mem_iff.mpr hx, hq⟩

theorem parseEmitted_any_failing (content editype : String) (opts : Options) :
    (parseEmitted content editype opts).any diagFailing =
      (rawDiags editype opts content).any diagFailing := by
  unfold parseEmitted stopPred
  cases hco : opts.continue_on_error
  · simp only [Bool.false_eq_true, if_false]
    exact takeThrough_any diagFailing diagFailing (fun _ h => h) _
  · simp only [if_true]
    exact takeThrough_any diagFatal diagFailing diagFatal_imp_failing _

theorem validateEmitted_any_failing (content editype : String) (opts : Options) :
    (validateEmitted content editype opts).any diagFailing =
      (rawDiags editype opts content).any diagFailing :=
  takeThrough_any diagFatal diagFailing diagFatal_imp_failing _

theorem diagKey_ne_of_not_le {x y : Diagnostic} (h : ¬ diagLe x y) : diagKey y ≠ diagKey x := by
  unfold diagLe at h
  unfold diagKey
  intro he
  rw [Prod.mk.injEq] at he
  obtain ⟨h1, h2⟩ := he
  exact h (by omega)

theorem filter_orderedInsert (k : Nat × Nat) (x : Diagnostic) :
    ∀ l : List Diagnostic,
      (List.orderedInsert diagLe x l).filter (fun d => decide (diagKey d = k)) =
        if diagKey x = k then x :: l.filter (fun d => decide (diagKey d = k))
        else l.filter (fun d => decide (diagKey d = k)) := by
  intro l
  induction l with
  | nil =>
    by_cases hk : diagKey x = k <;> simp [List.orderedInsert, hk]
  | cons y l ih =>
    simp only [List.orderedInsert]
    by_cases hxy : diagLe x y
    · rw [if_pos hxy, List.filter_cons]
      by_cases hk : diagKey x = k <;> simp [hk]
    · rw [if_neg hxy, List.filter_cons]
      have hne := diagKey_ne_of_not_le hxy
      by_cases hk : diagKey x = k
      · have hyk : ¬ diagKey y = k := by
          rw [← hk]
          exact hne
        simp only [hk, if_true] at ih ⊢
        rw [ih, List.filter_cons]
        simp [hyk]
      · simp only [hk, if_false] at ih ⊢
        by_cases hyk : diagKey y = k <;> simp [hyk, ih, List.filter_cons]

theorem snapshot_filter_key (k : Nat × Nat) :
    ∀ l : List Diagnostic,
      (snapshot l).filter (fun d => decide (diagKey d = k)) =
        l.filter (fun d => decide (diagKey d = k)) := by
  intro l
  induction l with
  | nil => rfl
  | cons a l ih =>
    show (List.orderedInsert diagLe a (List.insertionSort diagLe l)).filter _ = _
    rw [filter_orderedInsert]
    by_cases hk : diagKey a = k <;> simp only [hk, if_true, if_false, List.filter_cons] <;>
      simp only [snapshot] at ih <;> simp [ih, hk]

theorem snapshot_sorted (l : List Diagnostic) : List.Sorted diagLe (snapshot l) :=
  List.sorted_insertionSort diagLe l

/-! ## Claim theorems -/

/-- C1, counterexample: the record returned by `parse` carries its
diagnostics under the key `errors`, not `diagnostics`: at the concrete
input `""`, the key list of the result record is not the claimed
`success, data, diagnostics, message_count`. -/
theorem c1_counterexample :
    "diagnostics" ∉ (parse_edi "" "x12" "835005010" {}).toDict.map Prod.fst ∧
    "errors" ∈ (parse_edi "" "x12" "835005010" {}).toDict.map Prod.fst ∧
    (parse_edi "" "x12" "835005010" {}).toDict.map Prod.fst ≠
      ["success", "data", "diagnostics", "message_count"] := by
  refine ⟨?_, ?_, ?_⟩ <;> decide

/-- C1 (amended): for every input content, edi type, message type and
options, the parse operation returns a record with exactly the fields
`success` (bool), `data` (tree or null), `errors` (list of diagnostic
records) and `message_count` (int), and `success` is true if and only if
no diagnostic in that list has severity error or fatal. -/
theorem c1_parse_result_shape (content editype messagetype : String) (opts : Options) :
    (parse_edi content editype messagetype opts).toDict.map Prod.fst =
      ["success", "data", "errors", "message_count"] ∧
    ((parse_edi content editype messagetype opts).success = true ↔
      ∀ d ∈ (parse_edi content editype messagetype opts).errors,
        ¬(d.severity = Severity.error ∨ d.severity = Severity.fatal)) := by
  refine ⟨rfl, ?_⟩
  show (!(snapshot (parseEmitted content editype opts)).any diagFailing) = true ↔ _
  rw [Bool.not_eq_eq_eq_not]
  simp only [Bool.not_true, List.any_eq_false]
  constructor
  · intro h d hd
    exact (diagFailing_eq_false_iff d).mp (Bool.eq_false_iff.mpr (h d hd))
  · intro h d hd
    exact Bool.eq_false_iff.mp ((diagFailing_eq_false_iff d).mpr (h d hd))

/-- C2, counterexample: the record returned by `validate` carries its
diagnostics under the key `errors`, not `diagnostics`: at the concrete
input `""`, the key list of the result record is not the claimed
`valid, error_count, diagnostics, summary`. -/
theorem c2_counterexample :
    "diagnostics" ∉ (validate_edi "" "x12" "835005010" {}).toDict.map Prod.fst ∧
    "errors" ∈ (validate_edi "" "x12" "835005010" {}).toDict.map Prod.fst ∧
    (validate_edi "" "x12" "835005010" {}).toDict.map Prod.fst ≠
      ["valid", "error_count", "diagnostics", "summary"] := by
  refine ⟨?_, ?_, ?_⟩ <;> decide

/-- C2 (amended): for every input content, edi type, message type and
options, the validate operation returns a record with exactly the fields
`valid` (bool), `error_count` (int), `errors` (list of diagnostic records)
and `summary` (string), and `valid` is false if and only if some
diagnostic with severity error or fatal was emitted during the run. -/
theorem c2_validate_result_shape (content editype messagetype : String) (opts : Options) :
    (validate_edi content editype messagetype opts).toDict.map Prod.fst =
      ["valid", "error_count", "errors", "summary"] ∧
    ((validate_edi content editype messagetype opts).valid = false ↔
      ∃ d ∈ (validate_edi content editype messagetype opts).errors,
        (d.severity = Severity.error ∨ d.severity = Severity.fatal)) := by
  refine ⟨rfl, ?_⟩
  show (!(snapshot (validateEmitted content editype opts)).any diagFailing) = false ↔ _
  rw [Bool.not_eq_eq_eq_not]
  simp only [Bool.not_false, List.any_eq_true]
  constructor
  · rintro ⟨d, hd, hq⟩
    exact ⟨d, hd, (diagFailing_iff d).mp hq⟩
  · rintro ⟨d, hd, hq⟩
    exact ⟨d, hd, (diagFailing_iff d).mpr hq⟩

/-- C3: for every document (with the same edi type, message type and
default options), the `valid` flag returned by validate equals the
`success` flag returned by parse in strict mode (the default options:
strict field validation, no continuation on error). -/
theorem c3_validate_iff_strict_parse (content editype messagetype : String) :
    (validate_edi content editype messagetype {}).valid =
      (parse_edi content editype messagetype {}).success := by
  show (!(snapshot (validateEmitted content editype {})).any diagFailing) =
    (!(snapshot (parseEmitted content editype {})).any diagFailing)
  rw [snapshot_any, snapshot_any, validateEmitted_any_failing, parseEmitted_any_failing]

/-- C5: for every single parse or validate invocation, the returned
diagnostics list is sorted by nondecreasing byte offset with ties ordered
by path depth shallowest first (`List.Sorted diagLe`), and for every
offset/depth key the sublist of diagnostics at that key equals the
corresponding sublist of the emission-ordered stream, so equal-key
diagnostics preserve emission order. -/
theorem c5_diagnostic_ordering (content editype messagetype : String) (opts : Options) :
    (List.Sorted diagLe (parse_edi content editype messagetype opts).errors ∧
      ∀ k : Nat × Nat,
        (parse_edi content editype messagetype opts).errors.filter
            (fun d => decide (diagKey d = k)) =
          (parseEmitted content editype opts).filter (fun d => decide (diagKey d = k))) ∧
    (List.Sorted diagLe (validate_edi content editype messagetype opts).errors ∧
      ∀ k : Nat × Nat,
        (validate_edi content editype messagetype opts).errors.filter
            (fun d => decide (diagKey d = k)) =
          (validateEmitted content editype opts).filter (fun d => decide (diagKey d = k))) := by
  refine ⟨⟨?_, ?_⟩, ?_, ?_⟩
  · exact snapshot_sorted (parseEmitted content editype opts)
  · intro k
    exact snapshot_filter_key k (parseEmitted content editype opts)
  · exact snapshot_sorted (validateEmitted content editype opts)
  · intro k
    exact snapshot_filter_key k (validateEmitted content editype opts)

/-- C4: every severity is one of exactly the four values fatal, error,
warning and info, and every diagnostic record produced by parse or
validate carries one of those four severities and never any other value
such as critical. -/
theorem c4_produced_severities (content editype messagetype : String) (opts : Options) :
    (∀ s : Severity,
      s = Severity.fatal ∨ s = Severity.error ∨ s = Severity.warning ∨ s = Severity.info) ∧
    (∀ d ∈ (parse_edi content editype messagetype opts).errors,
      severityToString d.severity ∈ ["fatal", "error", "warning", "info"] ∧
        severityToString d.severity ≠ "critical") ∧
    (∀ d ∈ (validate_edi content editype messagetype opts).errors,
      severityToString d.severity ∈ ["fatal", "error", "warning", "info"] ∧
        severityToString d.severity ≠ "critical") := by
  have hs : ∀ s : Severity,
      severityToString s ∈ ["fatal", "error", "warning", "info"] ∧
        severityToString s ≠ "critical" := by
    intro s
    cases s <;> exact ⟨by decide, by decide⟩
  refine ⟨?_, ?_, ?_⟩
  · intro s
    cases s
    · exact Or.inl rfl
    · exact Or.inr (Or.inl rfl)
    · exact Or.inr (Or.inr (Or.inl rfl))
    · exact Or.inr (Or.inr (Or.inr rfl))
  · intro d _
    exact hs d.severity
  · intro d _
    exact hs d.severity

/-- C6, counterexample: the message type the repository passes to parse
and validate is the single merged string `{transaction}005010`
(demo.py line 112, docs/parser.py line 113, test_transformers.py line 31),
and the grammar catalogue's filenames match that merged string plus `.py`
(list_needed_xmls.py line 29), while the bare three-digit message type
matches no grammar filename: the grammar is not looked up by three
separate components. -/
theorem c6_counterexample :
    demoMessagetype "835" = "835005010" ∧ demoMessagetype "835" ≠ "835" ∧
      grammarFileMatch "835005010.py" = some ("835", "5010") ∧
      grammarFileMatch "835.py" = none := by
  refine ⟨?_, ?_, ?_, ?_⟩ <;> decide

/-- C6 (amended): a grammar is identified by edi type plus one merged
message-type string of the form `{message}00{version}` (such as
`835005010`); the version is embedded in the merged key, and the grammar
filename pattern recovers the message-type and version components from it. -/
theorem c6_merged_grammar_key (a1 a2 a3 c1 c2 c3 c4 : Char)
    (h1 : a1.isDigit = true) (h2 : a2.isDigit = true) (h3 : a3.isDigit = true)
    (h4 : c1.isDigit = true) (h5 : c2.isDigit = true) (h6 : c3.isDigit = true)
    (h7 : c4.isDigit = true) :
    grammarFileMatch (String.mk [a1, a2, a3, '0', '0', c1, c2, c3, c4, '.', 'p', 'y']) =
      some (String.mk [a1, a2, a3], String.mk [c1, c2, c3, c4]) := by
  have hl : (String.mk [a1, a2, a3, '0', '0', c1, c2, c3, c4, '.', 'p', 'y']).toList =
      [a1, a2, a3, '0', '0', c1, c2, c3, c4, '.', 'p', 'y'] := rfl
  unfold grammarFileMatch
  rw [hl]
  simp [h1, h2, h3, h4, h5, h6, h7]

/-- C6 witness: the merged key of demo.py decomposes into transaction 835
and version 5010. -/
theorem c6_merged_grammar_key_witness :
    grammarFileMatch (String.mk ['8', '3', '5', '0', '0', '5', '0', '1', '0', '.', 'p', 'y']) =
      some (String.mk ['8', '3', '5'], String.mk ['5', '0', '1', '0']) :=
  c6_merged_grammar_key '8' '3' '5' '5' '0' '1' '0' (by decide) (by decide) (by decide)
    (by decide) (by decide) (by decide) (by decide)

/-- C7, counterexample: the keyword the repository supplies for the
unknown-entities option is `checkunknownentities`, without underscores
(examples/parse_edi.py line 134); no call uses `check_unknown_entities`. -/
theorem c7_counterexample :
    "check_unknown_entities" ∉ exampleWithOptionsKwargs ∧
      "checkunknownentities" ∈ exampleWithOptionsKwargs := by
  refine ⟨?_, ?_⟩ <;> decide

/-- C7 (amended): the parse and validate operations accept an option named
exactly `checkunknownentities` of boolean type, and the repository's
example call supplying it (together with `debug` and `continue_on_error`)
succeeds: the modelled call of example_with_options parses its EDIFACT
content with success true and one message. -/
theorem c7_checkunknownentities_accepted :
    exampleWithOptionsResult.success = true ∧
      exampleWithOptionsResult.message_count = 1 ∧
      Options.checkunknownentities
          { debug := true, checkunknownentities := false, continue_on_error := true } = false ∧
      "checkunknownentities" ∈ exampleWithOptionsKwargs := by
  refine ⟨?_, ?_, ?_, ?_⟩ <;> decide

/-! ## AN round trip lemmas (C8) -/

theorem unescape_cons_of_ne (r c : Char) (h : c ≠ r) (xs : List Char) :
    unescapeChars r (c :: xs) = c :: unescapeChars r xs := by
  cases xs with
  | nil => rfl
  | cons d rest =>
    show (if c = r then d :: unescapeChars r rest else c :: unescapeChars r (d :: rest)) = _
    rw [if_neg h]

theorem unescape_encode (r : Char) (sp : List Char) (hr : r ∈ sp) :
    ∀ l : List Char, unescapeChars r (encodeChars r sp l) = l := by
  intro l
  induction l with
  | nil => rfl
  | cons c rest ih =>
    by_cases hc : sp.contains c = true
    · simp only [encodeChars, if_pos hc]
      show (if r = r then c :: unescapeChars r (encodeChars r sp rest)
        else r :: unescapeChars r (c :: encodeChars r sp rest)) = _
      rw [if_pos rfl, ih]
    · simp only [encodeChars, if_neg hc]
      rw [unescape_cons_of_ne r c ?_ _, ih]
      intro hcr
      subst hcr
      exact hc (List.elem_iff.mpr hr)

theorem decode_encode (d : Delims) (t : String) : decodeAN d false (encodeAN d t) = t := by
  unfold decodeAN encodeAN
  cases hrel : d.release with
  | none =>
    simp only
    cases t
    rfl
  | some r =>
    simp only
    have hsp : r ∈ ediSpecials d := by
      unfold ediSpecials
      rw [hrel]
      simp
    have hu : (String.mk (encodeChars r (ediSpecials d) t.toList)).toList =
        encodeChars r (ediSpecials d) t.toList := rfl
    rw [hu, unescape_encode r (ediSpecials d) hsp t.toList]
    cases t
    rfl

/-- C8, counterexample: the wire value `?A` (a release character escaping
an ordinary character) decodes to `A`, which re-encodes to `A`, not to the
original `?A`: decode followed by encode is not the identity on every AN
value. -/
theorem c8_counterexample :
    encodeAN edifactDefaultDelims (decodeAN edifactDefaultDelims false "?A") ≠ "?A" ∧
      decodeAN edifactDefaultDelims false "?A" = "A" := by
  refine ⟨?_, ?_⟩ <;> decide

/-- C8 (amended): for every canonically escaped AN field value (a value in
the image of the encoder, where release characters escape exactly the
special characters), decoding with `trim_trailing_spaces` false followed by
encoding yields the original value unchanged. -/
theorem c8_an_roundtrip (d : Delims) (v : String) (h : CanonicalAN d v) :
    encodeAN d (decodeAN d false v) = v := by
  obtain ⟨t, rfl⟩ := h
  rw [decode_encode]

/-- C8 witness: `A?+B` is the canonical encoding of `A+B` under the
EDIFACT default delimiters, and decode then encode returns it unchanged. -/
theorem c8_an_roundtrip_witness :
    CanonicalAN edifactDefaultDelims "A?+B" ∧
      encodeAN edifactDefaultDelims (decodeAN edifactDefaultDelims false "A?+B") = "A?+B" :=
  ⟨⟨"A+B", by decide⟩, c8_an_roundtrip edifactDefaultDelims "A?+B" ⟨"A+B", by decide⟩⟩

/-! ## Association list lemmas for extract_segments_from_xml (C9) -/

theorem lookupSeg_append_self (m : List (String × SegDef)) (i : String) (s : SegDef)
    (h : lookupSeg m i = none) : lookupSeg (m ++ [(i, s)]) i = some s := by
  induction m with
  | nil => simp [lookupSeg]
  | cons p m ih =>
    obtain ⟨k, v⟩ := p
    unfold lookupSeg at h
    show lookupSeg ((k, v) :: (m ++ [(i, s)])) i = some s
    unfold lookupSeg
    by_cases hk : k = i
    · rw [if_pos hk] at h
      cases h
    · rw [if_neg hk] at h
      rw [if_neg hk]
      exact ih h

theorem lookupSeg_append_ne (m : List (String × SegDef)) (i j : String) (s : SegDef)
    (h : j ≠ i) : lookupSeg (m ++ [(j, s)]) i = lookupSeg m i := by
  induction m with
  | nil => simp [lookupSeg, h]
  | cons p m ih =>
    obtain ⟨k, v⟩ := p
    show lookupSeg ((k, v) :: (m ++ [(j, s)])) i = _
    unfold lookupSeg
    by_cases hk : k = i <;> simp [hk, ih]

theorem lookupSeg_replaceKey_self (m : List (String × SegDef)) (i : String) (s ex : SegDef)
    (h : lookupSeg m i = some ex) : lookupSeg (replaceKey m i s) i = some s := by
  induction m with
  | nil => cases h
  | cons p m ih =>
    obtain ⟨k, v⟩ := p
    unfold lookupSeg at h
    unfold replaceKey
    by_cases hk : k = i
    · rw [if_pos hk]
      show lookupSeg ((k, s) :: m) i = some s
      unfold lookupSeg
      rw [if_pos hk]
    · rw [if_neg hk] at h
      rw [if_neg hk]
      show lookupSeg ((k, v) :: replaceKey m i s) i = some s
      unfold lookupSeg
      rw [if_neg hk]
      exact ih h

theorem lookupSeg_replaceKey_ne (m : List (String × SegDef)) (i j : String) (s : SegDef)
    (h : j ≠ i) : lookupSeg (replaceKey m j s) i = lookupSeg m i := by
  induction m with
  | nil => rfl
  | cons p m ih =>
    obtain ⟨k, v⟩ := p
    show lookupSeg (if k = j then (k, s) :: m else (k, v) :: replaceKey m j s) i = _
    by_cases hkj : k = j
    · rw [if_pos hkj]
      show lookupSeg ((k, s) :: m) i = lookupSeg ((k, v) :: m) i
      unfold lookupSeg
      by_cases hk : k = i
      · exact absurd (hkj.symm.trans hk) h
      · rw [if_neg hk, if_neg hk]
    · rw [if_neg hkj]
      show lookupSeg ((k, v) :: replaceKey m j s) i = lookupSeg ((k, v) :: m) i
      unfold lookupSeg
      by_cases hk : k = i <;> simp [hk, ih]

theorem lookupSeg_insert_ne (m : List (String × SegDef)) (n : SegDef) (i : String)
    (h : n.id ≠ i) : lookupSeg (insertSegDef m n) i = lookupSeg m i := by
  unfold insertSegDef
  cases hm : lookupSeg m n.id with
  | none => exact lookupSeg_append_ne m i n.id n h
  | some ex =>
    show lookupSeg (if keepNewSeg ex n = true then replaceKey m n.id n else m) i = lookupSeg m i
    by_cases hk : keepNewSeg ex n = true
    · rw [if_pos hk]
      exact lookupSeg_replaceKey_ne m i n.id n h
    · rw [if_neg hk]

theorem lookupSeg_insert_self (m : List (String × SegDef)) (n : SegDef) :
    lookupSeg (insertSegDef m n) n.id =
      some (match lookupSeg m n.id with
            | none => n
            | some ex => if keepNewSeg ex n then n else ex) := by
  unfold insertSegDef
  cases hm : lookupSeg m n.id with
  | none => exact lookupSeg_append_self m n.id n hm
  | some ex =>
    show lookupSeg (if keepNewSeg ex n = true then replaceKey m n.id n else m) n.id =
      some (if keepNewSeg ex n = true then n else ex)
    by_cases hk : keepNewSeg ex n = true
    · rw [if_pos hk, if_pos hk]
      exact lookupSeg_replaceKey_self m n.id n ex hm
    · rw [if_neg hk, if_neg hk]
      exact hm

theorem keepNewSeg_le (ex n : SegDef) :
    (keepNewSeg ex n = true → ex.elements.length ≤ n.elements.length) ∧
    (keepNewSeg ex n = false → n.elements.length ≤ ex.elements.length) := by
  unfold keepNewSeg
  split_ifs with h1 h2 h3
  · refine ⟨fun _ => ?_, fun hf => hf.elim⟩
    omega
  · refine ⟨fun _ => ?_, fun hf => hf.elim⟩
    omega
  · refine ⟨fun _ => ?_, fun _ => ?_⟩ <;> omega
  · refine ⟨fun hf => hf.elim, fun _ => ?_⟩
    omega

theorem maxCount_nil (i : String) : maxCount [] i = 0 := rfl

theorem maxCount_cons_eq (n : SegDef) (rest : List SegDef) (i : String) (h : n.id = i) :
    maxCount (n :: rest) i = Nat.max n.elements.length (maxCount rest i) := by
  unfold maxCount
  rw [List.filter_cons]
  simp [h]

theorem maxCount_cons_ne (n : SegDef) (rest : List SegDef) (i : String) (h : n.id ≠ i) :
    maxCount (n :: rest) i = maxCount rest i := by
  unfold maxCount
  rw [List.filter_cons]
  simp [h]

theorem extractFoldAux :
    ∀ (nodes : List SegDef) (m : List (String × SegDef)) (i : String),
      (∀ s, lookupSeg (nodes.foldl insertSegDef m) i = some s →
        s.elements.length =
          (match lookupSeg m i with
           | some ex => Nat.max ex.elements.length (maxCount nodes i)
           | none => maxCount nodes i)) ∧
      ((lookupSeg (nodes.foldl insertSegDef m) i).isSome ↔
        (lookupSeg m i).isSome ∨ ∃ n ∈ nodes, n.id = i) := by
  intro nodes
  induction nodes with
  | nil =>
    intro m i
    constructor
    · intro s hs
      simp only [List.foldl_nil] at hs
      rw [hs]
      simp [maxCount_nil]
    · simp [List.foldl_nil]
  | cons n rest ih =>
    intro m i
    simp only [List.foldl_cons]
    by_cases hni : n.id = i
    · cases hm : lookupSeg m i with
      | none =>
        have hm2 : lookupSeg m n.id = none := by rw [hni]; exact hm
        have hm' : lookupSeg (insertSegDef m n) i = some n := by
          rw [← hni, lookupSeg_insert_self, hm2]
        constructor
        · intro s hs
          have h1 := (ih (insertSegDef m n) i).1 s hs
          rw [hm'] at h1
          have h1' : s.elements.length = Nat.max n.elements.length (maxCount rest i) := h1
          show s.elements.length = maxCount (n :: rest) i
          rw [maxCount_cons_eq n rest i hni]
          exact h1'
        · rw [(ih (insertSegDef m n) i).2, hm']
          constructor
          · intro _
            exact Or.inr ⟨n, List.mem_cons_self n rest, hni⟩
          · intro _
            exact Or.inl rfl
      | some ex =>
        have hm2 : lookupSeg m n.id = some ex := by rw [hni]; exact hm
        have hm' : lookupSeg (insertSegDef m n) i =
            some (if keepNewSeg ex n then n else ex) := by
          rw [← hni, lookupSeg_insert_self, hm2]
        constructor
        · intro s hs
          have h1 := (ih (insertSegDef m n) i).1 s hs
          rw [hm'] at h1
          show s.elements.length = Nat.max ex.elements.length (maxCount (n :: rest) i)
          rw [maxCount_cons_eq n rest i hni]
          by_cases hk : keepNewSeg ex n = true
          · rw [if_pos hk] at h1
            have h1' : s.elements.length = Nat.max n.elements.length (maxCount rest i) := h1
            have hle := (keepNewSeg_le ex n).1 hk
            rw [h1']
            simp only [Nat.max_def]
            split_ifs <;> omega
          · rw [if_neg hk] at h1
            have h1' : s.elements.length = Nat.max ex.elements.length (maxCount rest i) := h1
            have hle := (keepNewSeg_le ex n).2 (Bool.eq_false_iff.mpr hk)
            rw [h1']
            simp only [Nat.max_def]
            split_ifs <;> omega
        · rw [(ih (insertSegDef m n) i).2, hm']
          constructor
          · intro _
            exact Or.inl rfl
          · intro _
            exact Or.inl rfl
    · have hm' : lookupSeg (insertSegDef m n) i = lookupSeg m i :=
        lookupSeg_insert_ne m n i hni
      constructor
      · intro s hs
        have h1 := (ih (insertSegDef m n) i).1 s hs
        rw [hm'] at h1
        rw [show maxCount (n :: rest) i = maxCount rest i from maxCount_cons_ne n rest i hni]
        exact h1
      · rw [(ih (insertSegDef m n) i).2, hm']
        constructor
        · rintro (h | ⟨x, hx, hxi⟩)
          · exact Or.inl h
          · exact Or.inr ⟨x, List.mem_cons_of_mem n hx, hxi⟩
        · rintro (h | ⟨x, hx, hxi⟩)
          · exact Or.inl h
          · rcases List.mem_cons.mp hx with h1 | h1
            · subst h1
              exact absurd hxi hni
            · exact Or.inr ⟨x, h1, hxi⟩

/-- C9: for every implementation-guide document (a list of parsed segment
records in document order) and every segment id occurring in it, the
definition retained by extract_segments_from_xml for that id has an
element count equal to the maximum element count over all records with
that id; and a stored definition is replaced only by one with strictly
more elements, or by one with an equal element count that has a segment
name (or a named first element) when the stored one does not. -/
theorem c9_retained_is_max :
    (∀ (nodes : List SegDef) (i : String), (∃ n ∈ nodes, n.id = i) →
      ∃ s, lookupSeg (extract_segments_from_xml nodes) i = some s ∧
        s.elements.length = maxCount nodes i) ∧
    (∀ ex segNew : SegDef, keepNewSeg ex segNew = true →
      ex.elements.length < segNew.elements.length ∨
        (segNew.elements.length = ex.elements.length ∧
          ((segNew.name ≠ "" ∧ ex.name = "") ∨
            (hasNamedFirst segNew = true ∧ hasUnnamedFirst ex = true)))) := by
  constructor
  · intro nodes i hex
    have h := extractFoldAux nodes [] i
    have hsome : (lookupSeg (nodes.foldl insertSegDef []) i).isSome := by
      rw [h.2]
      exact Or.inr hex
    obtain ⟨s, hs⟩ := Option.isSome_iff_exists.mp hsome
    refine ⟨s, hs, ?_⟩
    exact h.1 s hs
  · intro ex segNew hk
    unfold keepNewSeg at hk
    split_ifs at hk with h1 h2 h3
    · exact Or.inl h1
    · refine Or.inr ⟨h2, Or.inl ?_⟩
      simp only [Bool.and_eq_true, bne_iff_ne, beq_iff_eq] at h3
      exact h3
    · refine Or.inr ⟨h2, Or.inr ?_⟩
      simpa only [Bool.and_eq_true] using hk

/-- C9 witness: on the sample document with two NM1 records, the retained
NM1 definition's element count equals the maximum over both records. -/
theorem c9_retained_is_max_witness :
    (∃ n ∈ c9SampleNodes, n.id = "NM1") ∧
      ∃ s, lookupSeg (extract_segments_from_xml c9SampleNodes) "NM1" = some s ∧
        s.elements.length = maxCount c9SampleNodes "NM1" := by
  have hex : ∃ n ∈ c9SampleNodes, n.id = "NM1" := by decide
  exact ⟨hex, c9_retained_is_max.1 c9SampleNodes "NM1" hex⟩

/-! ## Branch lemmas for extract_fields_from_text (C10) -/

theorem extractStep_skip (st : List FieldDef × Bool) (line : String)
    (h : lineSkipped line = true) : extractStep st line = st := by
  unfold extractStep
  rw [if_pos h]

theorem extractStep_top (st : List FieldDef × Bool) (line : String)
    (pos code : String) (nameCs : List Char) (stc : Char) (tCs : List Char)
    (h0 : lineSkipped line = false)
    (h : topLevelMatch line.toList = some (pos, code, nameCs, stc, tCs)) :
    extractStep st line =
      (⟨pos, code, normName nameCs, String.mk tCs, statusFull stc,
          if codeIsComposite code then some [] else none⟩ :: st.1,
        codeIsComposite code) := by
  unfold extractStep
  simp only [h0, Bool.false_eq_true, if_false]
  rw [h]

theorem extractStep_sub (st : List FieldDef × Bool) (line : String)
    (code : String) (nameCs : List Char) (stc : Char) (tCs : List Char)
    (h0 : lineSkipped line = false) (h1 : topLevelMatch line.toList = none)
    (h2 : subLineMatch line.toList = some (code, nameCs, stc, tCs)) :
    extractStep st line =
      (if st.2 then
        (match st.1 with
         | f :: rest =>
             ({ f with
                 sub_elements :=
                   some ((f.sub_elements.getD []) ++
                     [⟨code, normName nameCs, String.mk tCs, statusFull stc⟩]) } :: rest,
               true)
         | [] => st)
       else st) := by
  unfold extractStep
  simp only [h0, Bool.false_eq_true, if_false]
  rw [h1, h2]

theorem extractStep_nomatch (st : List FieldDef × Bool) (line : String)
    (h0 : lineSkipped line = false) (h1 : topLevelMatch line.toList = none)
    (h2 : subLineMatch line.toList = none) : extractStep st line = st := by
  unfold extractStep
  simp only [h0, Bool.false_eq_true, if_false]
  rw [h1, h2]

/-- A sub-element line is a no-op of the loop body when the most recently
matched top-level field is not a composite (the `current_composite` of the
Python source is `None`). -/
theorem extractStep_sub_noop (st : List FieldDef × Bool) (l : String)
    (hsub : lineIsSub l = true) (hflag : st.2 = false) : extractStep st l = st := by
  have hsub' := hsub
  unfold lineIsSub at hsub'
  rw [Bool.and_eq_true, Bool.and_eq_true] at hsub'
  obtain ⟨⟨ha, hb⟩, hc⟩ := hsub'
  have h0 : lineSkipped l = false := by
    cases hls : lineSkipped l
    · rfl
    · simp [hls] at ha
  have h1 : topLevelMatch l.toList = none := Option.isNone_iff_eq_none.mp hb
  obtain ⟨x, hx⟩ := Option.isSome_iff_exists.mp hc
  obtain ⟨code, nameCs, stc, tCs⟩ := x
  rw [extractStep_sub st l code nameCs stc tCs h0 h1 hx, hflag]
  simp only [Bool.false_eq_true, if_false]

theorem extractStep_inv (st : List FieldDef × Bool) (line : String)
    (h1 : ∀ f ∈ st.1, f.sub_elements.isSome = codeIsComposite f.code)
    (h2 : st.2 = true → ∃ g rest, st.1 = g :: rest ∧ codeIsComposite g.code = true) :
    (∀ f ∈ (extractStep st line).1, f.sub_elements.isSome = codeIsComposite f.code) ∧
    ((extractStep st line).2 = true →
      ∃ g rest, (extractStep st line).1 = g :: rest ∧ codeIsComposite g.code = true) := by
  by_cases hskip : lineSkipped line = true
  · rw [extractStep_skip st line hskip]
    exact ⟨h1, h2⟩
  · have h0 : lineSkipped line = false := Bool.eq_false_iff.mpr hskip
    cases htop : topLevelMatch line.toList with
    | some x =>
      obtain ⟨pos, code, nameCs, stc, tCs⟩ := x
      rw [extractStep_top st line pos code nameCs stc tCs h0 htop]
      constructor
      · intro f hf
        rcases List.mem_cons.mp hf with hfe | hfm
        · subst hfe
          cases hcs : codeIsComposite code <;> simp [hcs]
        · exact h1 f hfm
      · intro hcomp
        exact ⟨_, st.1, rfl, hcomp⟩
    | none =>
      cases hsubm : subLineMatch line.toList with
      | some x =>
        obtain ⟨code, nameCs, stc, tCs⟩ := x
        rw [extractStep_sub st line code nameCs stc tCs h0 htop hsubm]
        by_cases hflag : st.2 = true
        · rw [if_pos hflag]
          cases hst : st.1 with
          | nil =>
            exact ⟨h1, h2⟩
          | cons g grest =>
            obtain ⟨g0, rest0, hge, hgc⟩ := h2 hflag
            rw [hst] at hge
            have hgg : g = g0 := by
              injection hge
            have hgC : codeIsComposite g.code = true := by
              rw [hgg]
              exact hgc
            constructor
            · intro f hf
              rcases List.mem_cons.mp hf with hfe | hfm
              · subst hfe
                simp [hgC]
              · exact h1 f (by rw [hst]; exact List.mem_cons_of_mem g hfm)
            · intro _
              exact ⟨_, grest, rfl, hgC⟩
        · rw [if_neg hflag]
          exact ⟨h1, h2⟩
      | none =>
        rw [extractStep_nomatch st line h0 htop hsubm]
        exact ⟨h1, h2⟩

theorem foldl_extractStep_inv :
    ∀ (lines : List String) (st : List FieldDef × Bool),
      (∀ f ∈ st.1, f.sub_elements.isSome = codeIsComposite f.code) →
      (st.2 = true → ∃ g rest, st.1 = g :: rest ∧ codeIsComposite g.code = true) →
      (∀ f ∈ (lines.foldl extractStep st).1, f.sub_elements.isSome = codeIsComposite f.code) ∧
      ((lines.foldl extractStep st).2 = true →
        ∃ g rest, (lines.foldl extractStep st).1 = g :: rest ∧
          codeIsComposite g.code = true) := by
  intro lines
  induction lines with
  | nil =>
    intro st h1 h2
    exact ⟨h1, h2⟩
  | cons l rest ih =>
    intro st h1 h2
    simp only [List.foldl_cons]
    have hstep := extractStep_inv st l h1 h2
    exact ih (extractStep st l) hstep.1 hstep.2

theorem extractLinesInv (lines : List String) :
    (∀ f ∈ (extractLines lines).1, f.sub_elements.isSome = codeIsComposite f.code) ∧
    ((extractLines lines).2 = true →
      ∃ g rest, (extractLines lines).1 = g :: rest ∧ codeIsComposite g.code = true) := by
  unfold extractLines
  refine foldl_extractStep_inv lines ([], false) ?_ ?_
  · intro f hf
    cases hf
  · intro h
    cases h

/-- C10: a sub-element line contributes to the output of
extract_fields_from_text only through the current composite: when the most
recently matched top-level field is not a composite (the state flag is
false), inserting a sub-element line anywhere leaves the loop's result
unchanged; and every field in the returned list has a `sub_elements` key
exactly when its code starts with `C`. -/
theorem c10_sub_element_gating :
    (∀ (pre post : List String) (l : String),
      lineIsSub l = true → (extractLines pre).2 = false →
      extractLines (pre ++ l :: post) = extractLines (pre ++ post)) ∧
    (∀ (text : String) (f : FieldDef), f ∈ extract_fields_from_text text →
      f.sub_elements.isSome = codeIsComposite f.code) := by
  constructor
  · intro pre post l hsub hflag
    unfold extractLines at hflag ⊢
    rw [List.foldl_append, List.foldl_append, List.foldl_cons,
      extractStep_sub_noop (List.foldl extractStep ([], false) pre) l hsub hflag]
  · intro text f hf
    unfold extract_fields_from_text at hf
    rw [List.mem_reverse] at hf
    exact (extractLinesInv (text.splitOn "\n")).1 f hf

/-- C10 witness: the sample sub-element line after a non-composite
top-level field (code 3035) contributes nothing. -/
theorem c10_sub_element_gating_witness :
    lineIsSub c10SubLine = true ∧ (extractLines [c10TopLine]).2 = false ∧
      extractLines ([c10TopLine] ++ c10SubLine :: []) = extractLines ([c10TopLine] ++ []) := by
  refine ⟨by decide, by decide, ?_⟩
  exact c10_sub_element_gating.1 [c10TopLine] [] c10SubLine (by decide) (by decide)
